import Mathlib

/-!
# Verification of the NEURON visual-fidelity toolchain

Shallow embedding of the image-analysis core of the repository
(`tools/color_transfer.py`, `tools/image_preprocess.py`) and proofs of the
specification claims about it.

Modelling conventions:
* 8-bit pixel channel values are integers (`ℤ`); NumPy `float32`/`float64`
  arithmetic on them is modelled exactly over `ℚ` (pixel data and the small
  rational constants in the code are exactly representable, so the claims
  proved here are not sensitive to binary rounding).
* Calls into external libraries (scikit-learn's `KMeans`, OpenCV colour
  conversion, NumPy `std`) enter as explicit parameters of the embedded
  functions, constrained by hypotheses stating what the library guarantees.
* A NumPy "NaN" value arising from the mean of an empty array is modelled with
  `Option`/a dedicated constructor, so undefinedness is explicit rather than
  silently collapsed to `0`.
-/

/-- An RGB triple (each channel an integer; valid pixels lie in `[0, 255]`). -/
abbrev Rgb : Type := ℤ × ℤ × ℤ

/-- Truncation toward zero of a rational, as performed by NumPy's
`astype(int)` / C casts. -/
def truncQ (x : ℚ) : ℤ :=
  if 0 ≤ x then ⌊x⌋ else -⌊-x⌋

/-- Round-half-to-even on rationals, the tie-breaking rule of Python's
built-in `round`. -/
def roundHalfEven (x : ℚ) : ℤ :=
  let n := ⌊x⌋
  let r := x - n
  if r < 1/2 then n
  else if 1/2 < r then n + 1
  else if 2 ∣ n then n else n + 1

/-- Python's `round(x, p)`: round to `p` decimal places with ties to even. -/
def roundTo (p : ℕ) (x : ℚ) : ℚ :=
  (roundHalfEven (x * 10 ^ p) : ℚ) / 10 ^ p

/-- `max(0.5, min(1.5, x))`, the clamp applied to all suggested filter
multipliers in `suggest_color_adjustments`. -/
def clampHalfToThreeHalves (x : ℚ) : ℚ :=
  max (1/2) (min (3/2) x)

/-! ## `image_preprocess.load_and_normalize` (resize step)

`load_and_normalize` resizes the (possibly auto-cropped) image to the target
width, computing `ratio = width / img.width` and
`new_height = int(img.height * ratio)`; the resize is skipped when the image
already has the target width. Only the output dimensions are modelled (the
Lanczos resampling itself does not affect them). -/

/-- Output `(width, height)` of the resize step of `load_and_normalize`, for
an input of width `w` and height `h` and target width `width`. Python's
`int(...)` truncates; the product is nonnegative, hence the floor. -/
def load_and_normalize_size (w h width : ℕ) : ℕ × ℕ :=
  if w ≠ width then
    (width, (⌊(h : ℚ) * ((width : ℚ) / (w : ℚ))⌋).toNat)
  else
    (w, h)

/-! ## `color_transfer.extract_palette` -/

/-- Near-white filter: keep a pixel iff every channel is `< 250`
(`np.all(pixels < 250, axis=1)`). -/
def filterNearWhite (px : List Rgb) : List Rgb :=
  px.filter (fun c => decide (c.1 < 250) && decide (c.2.1 < 250) && decide (c.2.2 < 250))

/-- Near-black filter: keep a pixel iff every channel is `> 5`
(`np.all(pixels > 5, axis=1)`). -/
def filterNearBlack (px : List Rgb) : List Rgb :=
  px.filter (fun c => decide (5 < c.1) && decide (5 < c.2.1) && decide (5 < c.2.2))

/-- The pixel list after the two optional filters of `extract_palette`. -/
def filteredPixels (px : List Rgb) (exW exB : Bool) : List Rgb :=
  let p1 := if exW then filterNearWhite px else px
  if exB then filterNearBlack p1 else p1

/-- `pixels.mean(axis=0).astype(int)`.  NumPy's mean of an empty array is NaN
(only a runtime warning is emitted), and casting NaN with `astype(int)`
produces a meaningless sentinel integer; this undefined case is modelled as
`none`. -/
def meanColor (l : List Rgb) : Option Rgb :=
  if l = [] then none
  else
    some (truncQ (((l.map (fun c => c.1)).sum : ℚ) / l.length),
          truncQ (((l.map (fun c => c.2.1)).sum : ℚ) / l.length),
          truncQ (((l.map (fun c => c.2.2)).sum : ℚ) / l.length))

/-- The value interpolated into a `#rrggbb` hex string: either a genuine RGB
triple, or the NaN-derived garbage produced when the mean of an empty pixel
array flows into the format string. -/
inductive HexVal : Type where
  | nan : HexVal
  | rgb : Rgb → HexVal
deriving DecidableEq

/-- The hex value of the fallback (mean-colour) palette entry. -/
def hexOfMean (l : List Rgb) : HexVal :=
  match meanColor l with
  | none => HexVal.nan
  | some c => HexVal.rgb c

/-- One entry of `palette_details`: its (integer-truncated) cluster-centre
colour and its frequency `count / len(labels)`. The stored hex string is the
fixed formatting of `rgb` and is not duplicated in the model. -/
structure PaletteEntry : Type where
  rgb : Rgb
  freq : ℚ
deriving DecidableEq

/-- Placeholder entry used only for total `headD` access; every theorem rules
the degenerate case out by hypothesis. -/
def dummyEntry : PaletteEntry := ⟨(0, 0, 0), 0⟩

/-- The output of the scikit-learn `KMeans.fit` call in `extract_palette`:
cluster centres (already `astype(int)`) indexed by label, and the per-pixel
label list. The clustering itself is an external library; theorems constrain
this data by the guarantees sklearn provides (`labels` has one entry per
sample and every label is `< k`). -/
structure KMeansRun : Type where
  centers : ℕ → Rgb
  labels : List ℕ

/-- A trivial clustering value, used where the k-means branch is not taken. -/
def kmNone : KMeansRun := ⟨fun _ => (0, 0, 0), []⟩

/-- The distinct labels in first-occurrence order: `Counter(labels).keys()`
(Python dictionaries preserve insertion order). -/
def uniqueKeys : List ℕ → List ℕ
  | [] => []
  | x :: xs => x :: uniqueKeys (xs.filter (fun y => decide (y ≠ x)))
termination_by l => l.length
decreasing_by
  simp only [List.length_cons]
  exact Nat.lt_succ_of_le (List.length_filter_le _ _)

/-- Descending insertion by key: `x` walks past exactly the elements whose
key is strictly larger, so it lands before every element whose key is at most
its own.  In `sortByCountDesc` the inserted element always precedes the
list's elements in the original order, so equal-key elements keep their
original relative order — the stability guarantee of Python's
`sorted(..., key=lambda x: counts[x], reverse=True)`. -/
def insertByCountDesc (cnt : ℕ → ℕ) (x : ℕ) : List ℕ → List ℕ
  | [] => [x]
  | y :: ys => if cnt x < cnt y then y :: insertByCountDesc cnt x ys else x :: y :: ys

/-- Stable sort of the cluster labels by descending count. -/
def sortByCountDesc (cnt : ℕ → ℕ) : List ℕ → List ℕ
  | [] => []
  | x :: xs => insertByCountDesc cnt x (sortByCountDesc cnt xs)

/-- `max(r, g, b) - min(r, g, b)`, the saturation proxy of the accent
selection loop. -/
def rgbRange (c : Rgb) : ℤ :=
  max c.1 (max c.2.1 c.2.2) - min c.1 (min c.2.1 c.2.2)

/-- The accent selection loop over `colors[1:]`: starting from
`max_saturation = 0` and `accent = None`, take an entry's colour whenever its
range strictly exceeds the running maximum. -/
def accentLoop : List PaletteEntry → ℤ → Option Rgb → Option Rgb
  | [], _, acc => acc
  | c :: rest, maxSat, acc =>
    if maxSat < rgbRange c.rgb then accentLoop rest (rgbRange c.rgb) (some c.rgb)
    else accentLoop rest maxSat acc

/-- The maximum of `m` and the ranges of the entries of `l`; with `m = 0`
this is the final `max_saturation` value of the accent loop over `l`. -/
def maxRangeFrom (m : ℤ) (l : List PaletteEntry) : ℤ :=
  l.foldr (fun c acc => max (rgbRange c.rgb) acc) m

/-- The result dictionary of `extract_palette`. The fallback branch carries no
`palette_details` key, which `dict.get("palette_details", [])` reads as `[]`;
`details` is therefore `[]` there. -/
structure PaletteResult : Type where
  colors : List HexVal
  details : List PaletteEntry
  primary_background : HexVal
  accent : Option HexVal
deriving DecidableEq

/-- The `len(pixels) < k` fallback branch of `extract_palette`: a single
entry holding the mean colour (NaN garbage if no pixel remains), no
`palette_details` key, `accent = None`. -/
def fallbackPalette (pixels : List Rgb) : PaletteResult :=
  { colors := [hexOfMean pixels]
    details := []
    primary_background := hexOfMean pixels
    accent := none }

/-- The ranked `palette_details` entries of the k-means branch: distinct
labels in first-occurrence order, stably sorted by descending count, each
mapped to its centre colour and frequency `count / len(labels)`. -/
def kmeansEntries (km : KMeansRun) : List PaletteEntry :=
  (sortByCountDesc (fun l => km.labels.count l) (uniqueKeys km.labels)).map
    (fun l => ⟨km.centers l, (km.labels.count l : ℚ) / (km.labels.length : ℚ)⟩)

/-- The k-means branch of `extract_palette`: ranked entries, background =
most frequent entry, and the accent expression
`accent or colors[1]["hex"] if len(colors) > 1 else primary_bg`, which by
Python precedence parses as
`(accent or colors[1]["hex"]) if len(colors) > 1 else primary_bg`. -/
def kmeansPalette (km : KMeansRun) : PaletteResult :=
  { colors := (kmeansEntries km).map (fun e => HexVal.rgb e.rgb)
    details := kmeansEntries km
    primary_background := HexVal.rgb ((kmeansEntries km).headD dummyEntry).rgb
    accent := some (if 1 < (kmeansEntries km).length then
        HexVal.rgb ((accentLoop (kmeansEntries km).tail 0 none).getD
          ((kmeansEntries km).tail.headD dummyEntry).rgb)
      else HexVal.rgb ((kmeansEntries km).headD dummyEntry).rgb) }

/-- `extract_palette(image, k, exclude_near_white, exclude_near_black)` with
the sklearn clustering output `km` passed explicitly. Mirrors the source:
filter, fallback to the mean colour when fewer than `k` pixels remain,
otherwise rank the cluster centres by frequency and assign roles. -/
def extract_palette (img : List Rgb) (k : ℕ) (exW exB : Bool) (km : KMeansRun) :
    PaletteResult :=
  if (filteredPixels img exW exB).length < k then
    fallbackPalette (filteredPixels img exW exB)
  else
    kmeansPalette km

/-! ## `color_transfer.suggest_color_adjustments` -/

/-- The qualitative `tone_suggestion`. -/
inductive Tone : Type where
  | darker : Tone
  | lighter : Tone
  | neutral : Tone
deriving DecidableEq

/-- The success payload of `suggest_color_adjustments`. -/
structure Suggestion : Type where
  brightness : ℚ
  contrast : ℚ
  saturate : ℚ
  tone : Tone
deriving DecidableEq

/-- `suggest_color_adjustments(ref_palette, gen_palette)`.  `labL` models the
L-channel of OpenCV's 8-bit RGB→LAB conversion applied to a background colour
(an integer, since `cv2` returns `uint8` data there); `refSat`/`genSat` model
the two `np.std` calls on the flattened palette RGB values (irrational in
general, hence parameters).  Returns `none` exactly where the source returns
the `"No palette data available"` failure dictionary. -/
def suggest_color_adjustments (ref gen : PaletteResult) (labL : Rgb → ℤ)
    (refSat genSat : ℚ) : Option Suggestion :=
  match ref.details, gen.details with
  | [], _ => none
  | _ :: _, [] => none
  | r0 :: _, g0 :: _ =>
    let ld : ℚ := ((labL r0.rgb : ℚ) - (labL g0.rgb : ℚ))
    let brightness : ℚ :=
      if 10 < |ld| then clampHalfToThreeHalves (roundTo 2 (1 + ld / 100)) else 1
    let saturate : ℚ :=
      if 0 < genSat then clampHalfToThreeHalves (roundTo 2 (refSat / genSat)) else 1
    some { brightness := brightness
           contrast := 1
           saturate := saturate
           tone := if ld < -10 then Tone.darker
             else if 10 < ld then Tone.lighter else Tone.neutral }

/-! ## `color_transfer.reinhard_color_transfer`

The LAB-space core of the Reinhard transfer (lines 106–130).  An image in LAB
space is a list of pixels, each a channel-indexed function `Fin 3 → ℚ`
(channel `0` is L).  Means are computed from the image; standard deviations
are irrational in general and enter as parameters constrained by `IsStd`. -/

/-- A LAB pixel: channels L, a, b indexed by `Fin 3`. -/
abbrev Pix : Type := Fin 3 → ℚ

/-- `np.mean(lab, axis=(0, 1))` for one channel. -/
def chanMean (img : List Pix) (i : Fin 3) : ℚ :=
  (img.map (fun p => p i)).sum / img.length

/-- The population variance (`np.std` squared, `ddof = 0`) of one channel. -/
def chanVar (img : List Pix) (i : Fin 3) : ℚ :=
  (img.map (fun p => (p i - chanMean img i) ^ 2)).sum / img.length

/-- `s` is the per-channel standard deviation of `img`: nonnegative with
square equal to the population variance. -/
def IsStd (img : List Pix) (s : Fin 3 → ℚ) : Prop :=
  ∀ i : Fin 3, 0 ≤ s i ∧ s i ^ 2 = chanVar img i

/-- The `1e-6` epsilon floor of line 113. -/
def stdEps : ℚ := 1 / 1000000

/-- `np.where(source_std < 1e-6, 1.0, source_std)`. -/
def guardStd (s : Fin 3 → ℚ) : Fin 3 → ℚ :=
  fun i => if s i < stdEps then 1 else s i

/-- The channels written by the transfer loop: `[1, 2]` under
`preserve_luminance`, otherwise `range(3)`. -/
def transferChannels (preserve : Bool) : List (Fin 3) :=
  if preserve then [1, 2] else [0, 1, 2]

/-- One pixel of `result_lab`: start from a copy of the source pixel and
overwrite each transferred channel with
`(source[i] - sourceMean[i]) * (targetStd[i] / sourceStd[i]) + targetMean[i]`,
reading the original source value each time (as the source does, since the
loop reads `source_lab` and writes `result_lab`). -/
def reinhardPixel (preserve : Bool) (sm ssg tm ts : Fin 3 → ℚ) (p : Pix) : Pix :=
  (transferChannels preserve).foldl
    (fun q i => Function.update q i ((p i - sm i) * (ts i / ssg i) + tm i)) p

/-- The LAB-space result of the Reinhard transfer, with the source std
epsilon-floored before the loop exactly as in the code. -/
def reinhard_result_lab (preserve : Bool) (src tgt : List Pix)
    (ss ts : Fin 3 → ℚ) : List Pix :=
  src.map (reinhardPixel preserve (chanMean src) (guardStd ss) (chanMean tgt) ts)

/-- `lab_to_rgb`'s clamping stage: `np.clip(lab, 0, 255).astype(np.uint8)`.
The clipped values lie in `[0, 255]`, so the `uint8` cast is exact truncation
(= floor).  The subsequent `cv2` LAB→BGR→RGB conversion consumes this buffer
unchanged. -/
def lab_clip_u8 (img : List Pix) : List (Fin 3 → ℤ) :=
  img.map (fun p => fun i => ⌊max 0 (min 255 (p i))⌋)

/-- The full per-pixel pipeline of `reinhard_color_transfer` up to the buffer
handed to the LAB→RGB conversion. -/
def reinhard_output (preserve : Bool) (src tgt : List Pix)
    (ss ts : Fin 3 → ℚ) : List (Fin 3 → ℤ) :=
  lab_clip_u8 (reinhard_result_lab preserve src tgt ss ts)

/-! ## `color_transfer.compute_ssim`

Embedding of scikit-image's `structural_similarity(gray1, gray2, full=True)`
with its defaults for `uint8` input: `win_size = 7`, uniform (non-Gaussian)
windows, sample covariance normalisation `49/48`, `K1 = 0.01`, `K2 = 0.03`,
`data_range = 255`; boundary handling of `scipy.ndimage.uniform_filter` is its
default half-sample `reflect` mode.  The scalar score is the mean of the
similarity map with `pad = 3` cropped from each border; the full map feeds the
difference-region pipeline. -/

/-- A grayscale image: rows of `uint8` values. -/
abbrev Gray : Type := List (List ℕ)

/-- Width of a row-major image (length of its first row). -/
def imgWidth {α : Type} (g : List (List α)) : ℕ := (g.headD []).length

/-- OpenCV's fixed-point `uint8` RGB→GRAY conversion:
`(R*4899 + G*9617 + B*1868 + 2^13) >> 14`. -/
def rgbToGray (c : Rgb) : ℕ :=
  ((c.1 * 4899 + c.2.1 * 9617 + c.2.2 * 1868 + 8192) / 16384).toNat

/-- Half-sample reflection of an integer index into `[0, n)` (scipy `reflect`
boundary mode, period `2n`). -/
def reflectIdx (n : ℕ) (t : ℤ) : ℕ :=
  if n = 0 then 0
  else
    let m := t.emod (2 * n)
    (if m < n then m else 2 * n - 1 - m).toNat

/-- Pixel access with reflected boundary indices. -/
def pixAt (g : Gray) (i j : ℤ) : ℚ :=
  ((g.getD (reflectIdx g.length i) []).getD (reflectIdx (imgWidth g) j) 0 : ℕ)

/-- The 7×7 window of pixel values centred at `(i, j)`. -/
def windowAt (g : Gray) (i j : ℕ) : List ℚ :=
  (List.range 49).map (fun t =>
    pixAt g ((i : ℤ) + (t : ℤ) / 7 - 3) ((j : ℤ) + (t : ℤ) % 7 - 3))

/-- Mean of a list of rationals (`0` for the empty list, which never arises in
the windows used). -/
def listMean (l : List ℚ) : ℚ := l.sum / l.length

/-- `C1 = (K1 * data_range)^2 = (0.01 * 255)^2`. -/
def ssimC1 : ℚ := (51 / 20) ^ 2

/-- `C2 = (K2 * data_range)^2 = (0.03 * 255)^2`. -/
def ssimC2 : ℚ := (153 / 20) ^ 2

/-- `ux`: the uniform-filter window mean. -/
def winMean (g : Gray) (i j : ℕ) : ℚ := listMean (windowAt g i j)

/-- `uxx`: the window mean of the squared values. -/
def winSqMean (g : Gray) (i j : ℕ) : ℚ :=
  listMean ((windowAt g i j).map (fun a => a * a))

/-- `vx = cov_norm * (uxx - ux * ux)` with `cov_norm = NP/(NP-1) = 49/48`. -/
def winVar (g : Gray) (i j : ℕ) : ℚ :=
  (49 / 48) * (winSqMean g i j - winMean g i j * winMean g i j)

/-- `vxy = cov_norm * (uxy - ux * uy)`. -/
def winCov (g1 g2 : Gray) (i j : ℕ) : ℚ :=
  (49 / 48) *
    (listMean (List.zipWith (fun a b => a * b) (windowAt g1 i j) (windowAt g2 i j)) -
      winMean g1 i j * winMean g2 i j)

/-- One entry of the SSIM similarity map:
`S = (A1*A2)/(B1*B2)` with `A1 = 2*ux*uy + C1`, `A2 = 2*vxy + C2`,
`B1 = ux^2 + uy^2 + C1`, `B2 = vx + vy + C2`. -/
def ssimAt (g1 g2 : Gray) (i j : ℕ) : ℚ :=
  ((2 * winMean g1 i j * winMean g2 i j + ssimC1) * (2 * winCov g1 g2 i j + ssimC2)) /
    ((winMean g1 i j * winMean g1 i j + winMean g2 i j * winMean g2 i j + ssimC1) *
      (winVar g1 i j + winVar g2 i j + ssimC2))

/-- The similarity-map entries over the border-cropped region (`pad = 3`
removed on every side), whose mean is the reported score. -/
def croppedSsim (g1 g2 : Gray) : List ℚ :=
  (List.range (g1.length - 6)).flatMap (fun i =>
    (List.range (imgWidth g1 - 6)).map (fun j => ssimAt g1 g2 (i + 3) (j + 3)))

/-- The scalar SSIM score. -/
def ssimScore (g1 g2 : Gray) : ℚ := listMean (croppedSsim g1 g2)

/-- The full similarity map (same shape as the inputs). -/
def ssimMap (g1 g2 : Gray) : List (List ℚ) :=
  (List.range g1.length).map (fun i =>
    (List.range (imgWidth g1)).map (fun j => ssimAt g1 g2 i j))

/-- `(x % 256 + 256) % 256` after truncation toward zero: NumPy's
`astype(np.uint8)` wrap-around cast. -/
def toU8 (x : ℚ) : ℕ := ((truncQ x).emod 256).toNat

/-- `(diff_map * 255).astype(np.uint8)` followed by
`cv2.threshold(…, 200, 255, THRESH_BINARY_INV)`: pixels above 200 map to 0,
the rest to 255. -/
def diffMask (smap : List (List ℚ)) : List (List ℕ) :=
  smap.map (fun row => row.map (fun q => if 200 < toU8 (q * 255) then 0 else 255))

/-- Coordinates `(row, col)` of the nonzero mask cells, in raster order. -/
def cellList (m : List (List ℕ)) : List (ℕ × ℕ) :=
  m.enum.flatMap (fun r =>
    r.2.enum.filterMap (fun c => if c.2 ≠ 0 then some (r.1, c.1) else none))

/-- 8-neighbourhood adjacency of two cells. -/
def cellAdj (a b : ℕ × ℕ) : Bool :=
  decide (a ≠ b) &&
  (decide (a.1 = b.1) || decide (a.1 + 1 = b.1) || decide (b.1 + 1 = a.1)) &&
  (decide (a.2 = b.2) || decide (a.2 + 1 = b.2) || decide (b.2 + 1 = a.2))

/-- Fuel-bounded region growing: absorb into `comp` every remaining cell
adjacent to it, until none is left. -/
def growComp : ℕ → List (ℕ × ℕ) → List (ℕ × ℕ) → List (ℕ × ℕ) × List (ℕ × ℕ)
  | 0, comp, rest => (comp, rest)
  | fuel + 1, comp, rest =>
    let new := rest.filter (fun c => comp.any (fun d => cellAdj c d))
    if new.isEmpty then (comp, rest)
    else growComp fuel (comp ++ new) (rest.filter (fun c => !(comp.any (fun d => cellAdj c d))))

/-- Split the nonzero cells into connected components (the external contours
reported by `cv2.findContours`, one per connected region, in raster order of
their first cell). -/
def compsAux : ℕ → List (ℕ × ℕ) → List (List (ℕ × ℕ))
  | 0, _ => []
  | _ + 1, [] => []
  | fuel + 1, c :: rest =>
    let g := growComp (rest.length + 1) [c] rest
    g.1 :: compsAux fuel g.2

/-- Connected components of the nonzero cells of a binary mask. -/
def findComponents (m : List (List ℕ)) : List (List (ℕ × ℕ)) :=
  compsAux (cellList m).length (cellList m)

/-- One reported difference region: bounding box and area.  OpenCV's
`contourArea` (a polygon area) is modelled by the component's pixel count;
this approximation is never exercised by the proved claims, which only use
the empty-mask case. -/
structure DiffRegion : Type where
  x : ℕ
  y : ℕ
  w : ℕ
  h : ℕ
  area : ℕ
deriving DecidableEq

/-- `cv2.boundingRect` plus area for one component. -/
def regionOf (comp : List (ℕ × ℕ)) : DiffRegion :=
  let xs := comp.map (fun c => c.2)
  let ys := comp.map (fun c => c.1)
  let x0 := xs.foldr min (xs.headD 0)
  let y0 := ys.foldr min (ys.headD 0)
  let x1 := xs.foldr max 0
  let y1 := ys.foldr max 0
  { x := x0, y := y0, w := x1 + 1 - x0, h := y1 + 1 - y0, area := comp.length }

/-- `for cnt in contours[:5]: … if area > 100: append`. -/
def diffRegions (m : List (List ℕ)) : List DiffRegion :=
  ((findComponents m).take 5).filterMap (fun comp =>
    let r := regionOf comp
    if 100 < r.area then some r else none)

/-- The result dictionary of `compute_ssim`. -/
structure ComparisonResult : Type where
  ssim : ℚ
  passed : Bool
  difference_regions : List DiffRegion
  analysis : String
deriving DecidableEq

/-- Lines 321–327: the result is built from the raw score — the reported
`ssim` is the score rounded to 4 decimal places, while `passed` and
`analysis` use the unrounded score. -/
def ssimResultOfScore (score : ℚ) (regions : List DiffRegion) : ComparisonResult :=
  { ssim := roundTo 4 score
    passed := decide (94/100 ≤ score)
    difference_regions := regions
    analysis := if 95/100 ≤ score then "excellent"
      else if 90/100 ≤ score then "good"
      else if 80/100 ≤ score then "fair" else "poor" }

/-- Shape equality check of line 291 (`img1.shape != img2.shape`). -/
def sameShape (a b : List (List Rgb)) : Bool :=
  decide (a.map List.length = b.map List.length)

/-- Model of `cv2.resize` to `(w, h)` by index sampling.  The real call uses
bilinear interpolation; no proved claim exercises this branch (it is only
taken for inputs of different shapes). -/
def resizeModel (img : List (List Rgb)) (w h : ℕ) : List (List Rgb) :=
  (List.range h).map (fun i =>
    (List.range w).map (fun j =>
      (img.getD (i * img.length / h) []).getD (j * imgWidth img / w) (0, 0, 0)))

/-- The shape-equalisation step (lines 291–295): images of equal shape pass
through unchanged, otherwise both are resized to the smaller common
dimensions. -/
def alignedPair (img1 img2 : List (List Rgb)) : List (List Rgb) × List (List Rgb) :=
  if sameShape img1 img2 then (img1, img2)
  else
    (resizeModel img1 (min (imgWidth img1) (imgWidth img2)) (min img1.length img2.length),
     resizeModel img2 (min (imgWidth img1) (imgWidth img2)) (min img1.length img2.length))

/-- `cv2.cvtColor(img, cv2.COLOR_RGB2GRAY)` over the whole image. -/
def grayOf (img : List (List Rgb)) : Gray :=
  img.map (fun row => row.map rgbToGray)

/-- `compute_ssim(img1, img2)`: equalise shapes if needed, convert to
grayscale, score with SSIM, extract difference regions from the thresholded
similarity map, and assemble the result.
`skimage.metrics.structural_similarity` raises `ValueError` ("win_size
exceeds image extent") when either dimension of the grayscale input is below
its 7×7 window; `compute_ssim` does not catch the exception, so the tool's
top-level handler reports a failure dictionary instead of a comparison
result on such inputs — modelled as `none`. -/
def compute_ssim (img1 img2 : List (List Rgb)) : Option ComparisonResult :=
  if (grayOf (alignedPair img1 img2).1).length < 7 ∨
      imgWidth (grayOf (alignedPair img1 img2).1) < 7 then
    none
  else
    some (ssimResultOfScore
      (ssimScore (grayOf (alignedPair img1 img2).1) (grayOf (alignedPair img1 img2).2))
      (diffRegions (diffMask
        (ssimMap (grayOf (alignedPair img1 img2).1) (grayOf (alignedPair img1 img2).2)))))

/-- A concrete non-empty reference palette used by the C8 witness. -/
def samplePaletteRef : PaletteResult :=
  ⟨[HexVal.rgb (30, 0, 0)], [⟨(30, 0, 0), 1⟩], HexVal.rgb (30, 0, 0), none⟩

/-- A concrete non-empty generated palette used by the C8 witness. -/
def samplePaletteGen : PaletteResult :=
  ⟨[HexVal.rgb (0, 0, 0)], [⟨(0, 0, 0), 1⟩], HexVal.rgb (0, 0, 0), none⟩

/-- A constant LAB pixel, used by concrete witnesses. -/
def constPix (x : ℚ) : Pix := fun _ => x

/-- A concrete 7×7 all-black image, used by the C6 witness. -/
def sampleImg7 : List (List Rgb) :=
  List.replicate 7 (List.replicate 7 ((0 : ℤ), (0 : ℤ), (0 : ℤ)))

/-- A concrete four-pixel image used by the C5 witness. -/
def sampleImg4 : List Rgb :=
  [((10 : ℤ), 10, 10), ((10 : ℤ), 10, 10), ((10 : ℤ), 10, 10), ((100 : ℤ), 50, 20)]

/-- A concrete two-cluster k-means output used by the C5 witness. -/
def sampleKm : KMeansRun :=
  ⟨fun l => if l = 0 then ((10 : ℤ), 10, 10) else ((100 : ℤ), 50, 20), [0, 0, 0, 1]⟩

/-! ## Arithmetic helper lemmas -/

/-- `roundHalfEven` is the identity on integers. -/
theorem roundHalfEven_intCast (n : ℤ) : roundHalfEven (n : ℚ) = n := by
  unfold roundHalfEven
  rw [Int.floor_intCast]
  norm_num

/-- Python's `round(x, 2)` does not change a value with exactly two decimal
places, such as `1 + d/100` for an integer `d`. -/
theorem roundTo_two_int_hundredths (d : ℤ) :
    roundTo 2 (1 + (d : ℚ) / 100) = 1 + (d : ℚ) / 100 := by
  unfold roundTo
  have h : (1 + (d : ℚ) / 100) * 10 ^ 2 = ((100 + d : ℤ) : ℚ) := by
    push_cast
    ring
  rw [h, roundHalfEven_intCast]
  push_cast
  ring

/-! ## Claims C2, C10, C8, C3, C1 -/

/-- C2 (counterexample): the claim "height = round(h × W / w)" fails on a
2000×1001 input with target width 1200: the code truncates `1001 × 0.6 =
600.6` to 600, while rounding gives 601. -/
theorem load_and_normalize_height_cex :
    (load_and_normalize_size 2000 1001 1200).2 = 600 ∧
    (round ((1001 : ℚ) * 1200 / 2000)).toNat = 601 := by
  constructor
  · unfold load_and_normalize_size
    rw [if_pos (by decide)]
    have h : ⌊((1001 : ℕ) : ℚ) * (((1200 : ℕ) : ℚ) / ((2000 : ℕ) : ℚ))⌋ = 600 := by
      norm_num
    rw [h]
    rfl
  · have h : round ((1001 : ℚ) * 1200 / 2000) = 601 := by
      rw [round_eq]
      norm_num
    rw [h]
    rfl

/-- C2 (amended): normalization with target width `W` produces an output of
width exactly `W` and height `⌊h × W / w⌋` (truncation, not rounding; the two
agree exactly when the fractional part of `h × W / w` is below one half). -/
theorem load_and_normalize_size_spec (w h width : ℕ) (hw : 0 < w) :
    load_and_normalize_size w h width = (width, (⌊((h : ℚ) * width) / w⌋).toNat) := by
  have hw0 : (w : ℚ) ≠ 0 := Nat.cast_ne_zero.mpr hw.ne'
  unfold load_and_normalize_size
  rcases eq_or_ne w width with he | hne
  · subst he
    rw [if_neg (by simp)]
    have : ((h : ℚ) * w) / w = (h : ℚ) := mul_div_cancel_right₀ _ hw0
    rw [this, Int.floor_natCast]
    simp
  · rw [if_pos hne, mul_div_assoc]

/-- C2 (witness for the amended theorem): at the concrete 2000×1001 input the
amended formula applies. -/
theorem load_and_normalize_size_spec_witness :
    0 < 2000 ∧
    load_and_normalize_size 2000 1001 1200 = (1200, (⌊((1001 : ℚ) * 1200) / 2000⌋).toNat) :=
  ⟨by decide, load_and_normalize_size_spec 2000 1001 1200 (by decide)⟩

/-- C10: the `passed` flag is computed from the unrounded SSIM score while the
reported `ssim` field is the score rounded to 4 decimal places, so any score
in `[0.93995, 0.94)` is reported as `ssim = 0.94` together with
`passed = false`. -/
theorem ssim_passed_uses_unrounded_score (s : ℚ) (regions : List DiffRegion)
    (h1 : 93995 / 100000 ≤ s) (h2 : s < 94 / 100) :
    (ssimResultOfScore s regions).ssim = 47 / 50 ∧
    (ssimResultOfScore s regions).passed = false := by
  constructor
  · show roundTo 4 s = 47 / 50
    unfold roundTo roundHalfEven
    have hfl : ⌊s * 10 ^ 4⌋ = 9399 := by
      rw [Int.floor_eq_iff]
      constructor
      · push_cast
        linarith
      · push_cast
        linarith
    rw [hfl]
    have h94 : roundHalfEven (s * 10 ^ 4) = 9400 → True := fun _ => trivial
    by_cases hr : s * 10 ^ 4 - (9399 : ℤ) < 1 / 2
    · exfalso
      push_cast at hr
      linarith
    · rw [if_neg hr]
      by_cases hr2 : (1 : ℚ) / 2 < s * 10 ^ 4 - (9399 : ℤ)
      · rw [if_pos hr2]
        norm_num
      · rw [if_neg hr2, if_neg (by decide)]
        norm_num
  · show decide (94 / 100 ≤ s) = false
    exact decide_eq_false (not_le.mpr h2)

/-- C10 (witness): a concrete score 0.93996 in the critical interval. -/
theorem ssim_passed_uses_unrounded_score_witness :
    93995 / 100000 ≤ (93996 / 100000 : ℚ) ∧ (93996 / 100000 : ℚ) < 94 / 100 ∧
    ((ssimResultOfScore (93996 / 100000) []).ssim = 47 / 50 ∧
      (ssimResultOfScore (93996 / 100000) []).passed = false) :=
  ⟨by norm_num, by norm_num,
    ssim_passed_uses_unrounded_score (93996 / 100000) [] (by norm_num) (by norm_num)⟩

/-- C8: for every pair of non-empty palettes, with `ΔL` the L-channel
difference (reference background minus generated background in LAB, an
integer since OpenCV's 8-bit LAB data is `uint8`): the suggested brightness
multiplier is `1` inside the `±10` deadband and `1 + ΔL/100` clamped to
`[0.5, 1.5]` outside it (the `round(…, 2)` in the code is the identity on
these two-decimal values), and the tone label is darker/lighter/neutral by
the same deadband. -/
theorem suggest_brightness_tone (ref gen : PaletteResult) (labL : Rgb → ℤ)
    (refSat genSat : ℚ) (r0 g0 : PaletteEntry) (rs gs : List PaletteEntry)
    (href : ref.details = r0 :: rs) (hgen : gen.details = g0 :: gs) :
    ∃ s : Suggestion,
      suggest_color_adjustments ref gen labL refSat genSat = some s ∧
      s.brightness = (if 10 < |labL r0.rgb - labL g0.rgb| then
          clampHalfToThreeHalves (1 + ((labL r0.rgb - labL g0.rgb : ℤ) : ℚ) / 100)
        else 1) ∧
      s.tone = (if labL r0.rgb - labL g0.rgb < -10 then Tone.darker
        else if 10 < labL r0.rgb - labL g0.rgb then Tone.lighter
        else Tone.neutral) := by
  unfold suggest_color_adjustments
  rw [href, hgen]
  set D : ℤ := labL r0.rgb - labL g0.rgb with hD
  have hld : (labL r0.rgb : ℚ) - (labL g0.rgb : ℚ) = (D : ℚ) := by
    rw [hD]
    push_cast
    ring
  refine ⟨_, rfl, ?_, ?_⟩
  · show (if 10 < |(labL r0.rgb : ℚ) - (labL g0.rgb : ℚ)| then
        clampHalfToThreeHalves
          (roundTo 2 (1 + ((labL r0.rgb : ℚ) - (labL g0.rgb : ℚ)) / 100))
      else 1) = _
    rw [hld]
    have hc : (10 : ℚ) < |(D : ℚ)| ↔ 10 < |D| := by
      rw [← Int.cast_abs]
      exact_mod_cast Iff.rfl
    exact if_congr hc (by rw [roundTo_two_int_hundredths]) rfl
  · show (if (labL r0.rgb : ℚ) - (labL g0.rgb : ℚ) < -10 then Tone.darker
      else if 10 < (labL r0.rgb : ℚ) - (labL g0.rgb : ℚ) then Tone.lighter
      else Tone.neutral) = _
    rw [hld]
    have hc1 : ((D : ℚ) < -10) ↔ (D < -10) := by exact_mod_cast Iff.rfl
    have hc2 : ((10 : ℚ) < (D : ℚ)) ↔ (10 < D) := by exact_mod_cast Iff.rfl
    exact if_congr hc1 rfl (if_congr hc2 rfl rfl)

/-- C8 (witness): concrete single-entry palettes with `ΔL = 30`. -/
theorem suggest_brightness_tone_witness :
    samplePaletteRef.details = [⟨(30, 0, 0), 1⟩] ∧
    samplePaletteGen.details = [⟨(0, 0, 0), 1⟩] ∧
    ∃ s : Suggestion,
      suggest_color_adjustments samplePaletteRef samplePaletteGen
        (fun c => c.1) 0 0 = some s ∧
      s.brightness = (if 10 < |(30 : ℤ) - 0| then
          clampHalfToThreeHalves (1 + (((30 : ℤ) - 0 : ℤ) : ℚ) / 100)
        else 1) ∧
      s.tone = (if (30 : ℤ) - 0 < -10 then Tone.darker
        else if 10 < (30 : ℤ) - 0 then Tone.lighter
        else Tone.neutral) :=
  ⟨rfl, rfl,
    suggest_brightness_tone samplePaletteRef samplePaletteGen (fun c => c.1) 0 0
      ⟨(30, 0, 0), 1⟩ ⟨(0, 0, 0), 1⟩ [] [] rfl rfl⟩

/-- C3 (counterexample): the fallback palette produced by `extract_palette`
on a single mid-grey pixel with `k = 2` has one entry, yet
`suggest_color_adjustments` on a pair of such palettes reports the no-data
failure, because the fallback result carries no `palette_details`. -/
theorem suggest_fails_on_fallback_palette :
    (extract_palette [((100 : ℤ), 100, 100)] 2 true true kmNone).colors.length = 1 ∧
    suggest_color_adjustments
      (extract_palette [((100 : ℤ), 100, 100)] 2 true true kmNone)
      (extract_palette [((100 : ℤ), 100, 100)] 2 true true kmNone)
      (fun _ => 0) 0 0 = none := by
  have hdet : (extract_palette [((100 : ℤ), 100, 100)] 2 true true kmNone).details = [] := by
    unfold extract_palette
    rw [if_pos (by decide)]
    rfl
  have hcol : (extract_palette [((100 : ℤ), 100, 100)] 2 true true kmNone).colors.length = 1 := by
    unfold extract_palette
    rw [if_pos (by decide)]
    rfl
  refine ⟨hcol, ?_⟩
  unfold suggest_color_adjustments
  rw [hdet]

/-- C3 (amended): `suggest_color_adjustments` reports the no-data failure iff
at least one input palette has an empty `palette_details` list — which is the
case for the single-entry mean-colour fallback palette (whose result dict has
no `palette_details` key at all), not only for palettes without entries. -/
theorem suggest_success_iff_details (ref gen : PaletteResult) (labL : Rgb → ℤ)
    (refSat genSat : ℚ) :
    (suggest_color_adjustments ref gen labL refSat genSat).isSome = true ↔
      ref.details ≠ [] ∧ gen.details ≠ [] := by
  unfold suggest_color_adjustments
  rcases ref with ⟨rc, rd, rb, ra⟩
  rcases gen with ⟨gc, gd, gb, ga⟩
  cases rd <;> cases gd <;> simp

/-- C1: on an all-white input with `exclude_near_white` enabled, the
filtering leaves zero pixels, and the fallback branch feeds the NaN produced
by `pixels.mean(axis=0)` on an empty array straight into the hex formatting:
the single returned "colour" is not an arithmetic mean (nor any colour), so
the well-defined mean-colour fallback the claim describes is not what the
code computes when no pixels remain. -/
theorem extract_palette_empty_mean_nan :
    filteredPixels [((255 : ℤ), 255, 255)] true true = [] ∧
    (extract_palette [((255 : ℤ), 255, 255)] 1 true true kmNone).colors = [HexVal.nan] ∧
    (extract_palette [((255 : ℤ), 255, 255)] 1 true true kmNone).primary_background
      = HexVal.nan := by
  refine ⟨by decide, ?_, ?_⟩ <;>
    · unfold extract_palette
      rw [if_pos (by decide)]
      rfl

/-! ## Palette lemmas (claims C7 and C5) -/

/-- Every key returned by `uniqueKeys` occurs in the input list. -/
theorem mem_of_mem_uniqueKeys : ∀ (l : List ℕ), ∀ y ∈ uniqueKeys l, y ∈ l := by
  intro l
  induction l using uniqueKeys.induct with
  | case1 => simp [uniqueKeys]
  | case2 x xs ih =>
    intro y hy
    rw [uniqueKeys] at hy
    rcases List.mem_cons.mp hy with h | h
    · exact h ▸ List.mem_cons_self _ _
    · exact List.mem_cons_of_mem _ (List.mem_of_mem_filter (ih y h))

/-- The keys returned by `uniqueKeys` are distinct. -/
theorem uniqueKeys_nodup : ∀ (l : List ℕ), (uniqueKeys l).Nodup := by
  intro l
  induction l using uniqueKeys.induct with
  | case1 => simp [uniqueKeys]
  | case2 x xs ih =>
    rw [uniqueKeys]
    refine List.nodup_cons.mpr ⟨?_, ih⟩
    intro hx
    have := mem_of_mem_uniqueKeys _ _ hx
    have := List.of_mem_filter this
    simp at this

/-- `uniqueKeys` of a non-empty list is non-empty. -/
theorem uniqueKeys_ne_nil (x : ℕ) (xs : List ℕ) : uniqueKeys (x :: xs) ≠ [] := by
  rw [uniqueKeys]
  exact List.cons_ne_nil _ _

/-- A list of distinct naturals all below `k` has at most `k` elements. -/
theorem length_le_of_nodup_bounded (l : List ℕ) (k : ℕ) (hn : l.Nodup)
    (hb : ∀ x ∈ l, x < k) : l.length ≤ k := by
  have h1 : l.toFinset ⊆ Finset.range k := by
    intro x hx
    exact Finset.mem_range.mpr (hb x (List.mem_toFinset.mp hx))
  have h2 := Finset.card_le_card h1
  rwa [List.toFinset_card_of_nodup hn, Finset.card_range] at h2

/-- Membership in a descending insertion. -/
theorem mem_insertByCountDesc (cnt : ℕ → ℕ) (x a : ℕ) :
    ∀ (l : List ℕ), a ∈ insertByCountDesc cnt x l ↔ a = x ∨ a ∈ l := by
  intro l
  induction l with
  | nil => simp [insertByCountDesc]
  | cons y ys ih =>
    rw [insertByCountDesc]
    split_ifs with h
    · simp only [List.mem_cons, ih]
      tauto
    · simp only [List.mem_cons]

/-- Descending insertion preserves sortedness by descending count. -/
theorem sorted_insertByCountDesc (cnt : ℕ → ℕ) (x : ℕ) :
    ∀ (l : List ℕ), List.Sorted (fun a b => cnt b ≤ cnt a) l →
      List.Sorted (fun a b => cnt b ≤ cnt a) (insertByCountDesc cnt x l) := by
  intro l
  induction l with
  | nil =>
    intro _
    simp [insertByCountDesc]
  | cons y ys ih =>
    intro hs
    rw [List.sorted_cons] at hs
    rw [insertByCountDesc]
    split_ifs with h
    · rw [List.sorted_cons]
      refine ⟨?_, ih hs.2⟩
      intro b hb
      rcases (mem_insertByCountDesc cnt x b ys).mp hb with rfl | hb
      · exact le_of_lt h
      · exact hs.1 b hb
    · rw [List.sorted_cons]
      refine ⟨?_, List.sorted_cons.mpr hs⟩
      intro b hb
      rcases List.mem_cons.mp hb with rfl | hb
      · exact le_of_not_lt h
      · exact le_trans (hs.1 b hb) (le_of_not_lt h)

/-- A descending insertion is a permutation of consing. -/
theorem perm_insertByCountDesc (cnt : ℕ → ℕ) (x : ℕ) :
    ∀ (l : List ℕ), (insertByCountDesc cnt x l).Perm (x :: l) := by
  intro l
  induction l with
  | nil => simp [insertByCountDesc]
  | cons y ys ih =>
    rw [insertByCountDesc]
    split_ifs with h
    · exact (List.Perm.cons y ih).trans (List.Perm.swap x y ys)
    · exact List.Perm.refl _

/-- The count-descending sort is a permutation of its input. -/
theorem perm_sortByCountDesc (cnt : ℕ → ℕ) :
    ∀ (l : List ℕ), (sortByCountDesc cnt l).Perm l := by
  intro l
  induction l with
  | nil => exact List.Perm.refl _
  | cons x xs ih =>
    rw [sortByCountDesc]
    exact (perm_insertByCountDesc cnt x _).trans (List.Perm.cons x ih)

/-- The count-descending sort is sorted by descending count. -/
theorem sorted_sortByCountDesc (cnt : ℕ → ℕ) :
    ∀ (l : List ℕ), List.Sorted (fun a b => cnt b ≤ cnt a) (sortByCountDesc cnt l) := by
  intro l
  induction l with
  | nil => simp [sortByCountDesc]
  | cons x xs ih => exact sorted_insertByCountDesc cnt x _ ih

/-- The ranked entry list of the k-means branch is sorted by non-increasing
frequency. -/
theorem kmeansEntries_sorted_freq (km : KMeansRun) :
    List.Sorted (fun a b : PaletteEntry => b.freq ≤ a.freq) (kmeansEntries km) := by
  unfold kmeansEntries
  refine List.Pairwise.map _ ?_ (sorted_sortByCountDesc _ _)
  intro a b hab
  show ((km.labels.count b : ℚ) / (km.labels.length : ℚ)) ≤
    ((km.labels.count a : ℚ) / (km.labels.length : ℚ))
  rw [div_eq_mul_inv, div_eq_mul_inv]
  refine mul_le_mul_of_nonneg_right ?_ ?_
  · exact_mod_cast hab
  · positivity

/-- The k-means branch returns at most `k` entries when every label is
below `k`. -/
theorem kmeansEntries_length_le (km : KMeansRun) (k : ℕ)
    (hlab : ∀ l ∈ km.labels, l < k) : (kmeansEntries km).length ≤ k := by
  unfold kmeansEntries
  rw [List.length_map, (perm_sortByCountDesc _ _).length_eq]
  refine length_le_of_nodup_bounded _ k (uniqueKeys_nodup _) ?_
  intro x hx
  exact hlab x (mem_of_mem_uniqueKeys _ x hx)

/-- C7: for every input image and every `k ≥ 1` (with the sklearn guarantee
that all labels are below `k`), the palette returned by `extract_palette` has
at most `k` entries and its `palette_details` are sorted in non-increasing
order of frequency.  This covers both the fallback branch (one entry, empty
details) and the k-means branch. -/
theorem extract_palette_sorted_and_bounded (img : List Rgb) (k : ℕ)
    (exW exB : Bool) (km : KMeansRun) (hk : 1 ≤ k)
    (hlab : ∀ l ∈ km.labels, l < k) :
    (extract_palette img k exW exB km).colors.length ≤ k ∧
    (extract_palette img k exW exB km).details.length ≤ k ∧
    List.Sorted (fun a b : PaletteEntry => b.freq ≤ a.freq)
      (extract_palette img k exW exB km).details := by
  unfold extract_palette
  split_ifs with hbr
  · refine ⟨?_, ?_, ?_⟩
    · exact hk
    · simp [fallbackPalette]
    · simp [fallbackPalette]
  · refine ⟨?_, ?_, ?_⟩
    · show ((kmeansEntries km).map (fun e => HexVal.rgb e.rgb)).length ≤ k
      rw [List.length_map]
      exact kmeansEntries_length_le km k hlab
    · exact kmeansEntries_length_le km k hlab
    · exact kmeansEntries_sorted_freq km

/-- C7 (witness): a one-pixel image with `k = 1` and a single label. -/
theorem extract_palette_sorted_and_bounded_witness :
    1 ≤ 1 ∧ (∀ l ∈ ([0] : List ℕ), l < 1) ∧
    ((extract_palette [((10 : ℤ), 10, 10)] 1 false false
        ⟨fun _ => (7, 7, 7), [0]⟩).colors.length ≤ 1 ∧
      (extract_palette [((10 : ℤ), 10, 10)] 1 false false
        ⟨fun _ => (7, 7, 7), [0]⟩).details.length ≤ 1 ∧
      List.Sorted (fun a b : PaletteEntry => b.freq ≤ a.freq)
        (extract_palette [((10 : ℤ), 10, 10)] 1 false false
          ⟨fun _ => (7, 7, 7), [0]⟩).details) :=
  ⟨by decide, by decide,
    extract_palette_sorted_and_bounded [((10 : ℤ), 10, 10)] 1 false false
      ⟨fun _ => (7, 7, 7), [0]⟩ (by decide) (by decide)⟩

/-- `maxRangeFrom` unfolds on cons. -/
theorem maxRangeFrom_cons (c : PaletteEntry) (m : ℤ) (l : List PaletteEntry) :
    maxRangeFrom m (c :: l) = max (rgbRange c.rgb) (maxRangeFrom m l) := rfl

/-- Raising the base of `maxRangeFrom` commutes with `max`. -/
theorem maxRangeFrom_max (b c : ℤ) : ∀ (l : List PaletteEntry),
    maxRangeFrom (max b c) l = max b (maxRangeFrom c l) := by
  intro l
  induction l with
  | nil => rfl
  | cons e t ih =>
    rw [maxRangeFrom_cons, maxRangeFrom_cons, ih, max_left_comm]

/-- Complete characterisation of the accent selection loop: either no entry
range exceeds the running maximum `m` (and the accumulator passes through
unchanged), or the loop returns the colour of an entry achieving the maximal
range. -/
theorem accentLoop_spec : ∀ (l : List PaletteEntry) (m : ℤ) (acc : Option Rgb),
    (maxRangeFrom m l = m ∧ accentLoop l m acc = acc) ∨
    (m < maxRangeFrom m l ∧
      ∃ c ∈ l, accentLoop l m acc = some c.rgb ∧ rgbRange c.rgb = maxRangeFrom m l) := by
  intro l
  induction l with
  | nil =>
    intro m acc
    exact Or.inl ⟨rfl, rfl⟩
  | cons c rest ih =>
    intro m acc
    rw [accentLoop, maxRangeFrom_cons]
    split_ifs with hm
    · have hkey : maxRangeFrom (rgbRange c.rgb) rest
          = max (rgbRange c.rgb) (maxRangeFrom m rest) := by
        conv_lhs => rw [← max_eq_left (le_of_lt hm)]
        exact maxRangeFrom_max _ _ _
      rcases ih (rgbRange c.rgb) (some c.rgb) with ⟨heq, hacc⟩ | ⟨hlt, c', hc', heq, hr⟩
      · have hmax : max (rgbRange c.rgb) (maxRangeFrom m rest) = rgbRange c.rgb :=
          hkey.symm.trans heq
        right
        rw [hmax]
        exact ⟨hm, c, List.mem_cons_self _ _, hacc, rfl⟩
      · right
        rw [← hkey]
        exact ⟨lt_trans hm hlt, c', List.mem_cons_of_mem _ hc', heq, hr⟩
    · have hrm : rgbRange c.rgb ≤ m := le_of_not_lt hm
      rcases ih m acc with ⟨heq, hacc⟩ | ⟨hlt, c', hc', heq, hr⟩
      · left
        rw [heq, max_eq_right hrm]
        exact ⟨rfl, hacc⟩
      · right
        rw [max_eq_right (le_trans hrm (le_of_lt hlt))]
        exact ⟨hlt, c', List.mem_cons_of_mem _ hc', heq, hr⟩

/-- The k-means branch produces a non-empty entry list whenever the label
list is non-empty. -/
theorem kmeansEntries_ne_nil (km : KMeansRun) (hne : km.labels ≠ []) :
    kmeansEntries km ≠ [] := by
  unfold kmeansEntries
  intro h
  rw [List.map_eq_nil_iff] at h
  have huniq : uniqueKeys km.labels = [] :=
    ((h ▸ perm_sortByCountDesc (fun l => km.labels.count l) (uniqueKeys km.labels)).symm).eq_nil
  rcases hl : km.labels with _ | ⟨x, xs⟩
  · exact hne hl
  · rw [hl] at huniq
    exact uniqueKeys_ne_nil x xs huniq

/-- C5: in the k-means branch (at least `k` pixels survive filtering; sklearn
labels every sample), the highest-frequency entry is the background; the
accent is the non-background entry of maximal RGB range when some
non-background entry has positive range, otherwise the second-ranked entry;
and a single-entry palette reports the background itself as accent. -/
theorem extract_palette_roles (img : List Rgb) (k : ℕ) (exW exB : Bool)
    (km : KMeansRun) (hbr : k ≤ (filteredPixels img exW exB).length)
    (hne : km.labels ≠ []) :
    extract_palette img k exW exB km = kmeansPalette km ∧
    (kmeansPalette km).primary_background
      = HexVal.rgb ((kmeansEntries km).headD dummyEntry).rgb ∧
    (∀ e ∈ kmeansEntries km, e.freq ≤ ((kmeansEntries km).headD dummyEntry).freq) ∧
    ((kmeansEntries km).length = 1 →
      (kmeansPalette km).accent = some ((kmeansPalette km).primary_background)) ∧
    (0 < maxRangeFrom 0 (kmeansEntries km).tail →
      ∃ e ∈ (kmeansEntries km).tail,
        (kmeansPalette km).accent = some (HexVal.rgb e.rgb) ∧
        rgbRange e.rgb = maxRangeFrom 0 (kmeansEntries km).tail) ∧
    (1 < (kmeansEntries km).length → maxRangeFrom 0 (kmeansEntries km).tail ≤ 0 →
      (kmeansPalette km).accent
        = some (HexVal.rgb ((kmeansEntries km).tail.headD dummyEntry).rgb)) := by
  obtain ⟨e0, rest, hE⟩ : ∃ e0 rest, kmeansEntries km = e0 :: rest := by
    rcases h : kmeansEntries km with _ | ⟨a, b⟩
    · exact absurd h (kmeansEntries_ne_nil km hne)
    · exact ⟨a, b, rfl⟩
  refine ⟨?_, rfl, ?_, ?_, ?_, ?_⟩
  · unfold extract_palette
    rw [if_neg (not_lt.mpr hbr)]
  · have hs := kmeansEntries_sorted_freq km
    rw [hE] at hs ⊢
    rw [List.sorted_cons] at hs
    intro e he
    rcases List.mem_cons.mp he with rfl | he
    · exact le_refl _
    · exact hs.1 e he
  · intro h1
    have hrest : rest = [] := by
      rw [hE] at h1
      simpa using h1
    simp only [kmeansPalette]
    rw [if_neg (by rw [h1]; omega)]
  · intro hpos
    rcases accentLoop_spec (kmeansEntries km).tail 0 none with ⟨heq, _⟩ | ⟨_, c', hc', heq, hr⟩
    · rw [heq] at hpos
      exact absurd hpos (by omega)
    · have h2 : 1 < (kmeansEntries km).length := by
        rw [hE] at hc' ⊢
        simp only [List.tail_cons] at hc'
        have := List.length_pos.mpr (List.ne_nil_of_mem hc')
        simp only [List.length_cons]
        omega
      refine ⟨c', hc', ?_, hr⟩
      simp only [kmeansPalette]
      rw [if_pos h2, heq]
      rfl
  · intro h2 hz
    rcases accentLoop_spec (kmeansEntries km).tail 0 none with ⟨_, hacc⟩ | ⟨hlt, _, _, _, _⟩
    · simp only [kmeansPalette]
      rw [if_pos h2, hacc]
      rfl
    · exact absurd hlt (by omega)

/-- C5 (witness): a four-pixel image, `k = 2`, labels `[0,0,0,1]`; the first
cluster is the background, the second (range 80) the accent. -/
theorem extract_palette_roles_witness :
    2 ≤ (filteredPixels sampleImg4 false false).length ∧
    sampleKm.labels ≠ [] ∧
    (extract_palette sampleImg4 2 false false sampleKm = kmeansPalette sampleKm ∧
      (kmeansPalette sampleKm).primary_background
        = HexVal.rgb ((kmeansEntries sampleKm).headD dummyEntry).rgb ∧
      (∀ e ∈ kmeansEntries sampleKm,
        e.freq ≤ ((kmeansEntries sampleKm).headD dummyEntry).freq) ∧
      ((kmeansEntries sampleKm).length = 1 →
        (kmeansPalette sampleKm).accent
          = some ((kmeansPalette sampleKm).primary_background)) ∧
      (0 < maxRangeFrom 0 (kmeansEntries sampleKm).tail →
        ∃ e ∈ (kmeansEntries sampleKm).tail,
          (kmeansPalette sampleKm).accent = some (HexVal.rgb e.rgb) ∧
          rgbRange e.rgb = maxRangeFrom 0 (kmeansEntries sampleKm).tail) ∧
      (1 < (kmeansEntries sampleKm).length →
        maxRangeFrom 0 (kmeansEntries sampleKm).tail ≤ 0 →
        (kmeansPalette sampleKm).accent
          = some (HexVal.rgb ((kmeansEntries sampleKm).tail.headD dummyEntry).rgb))) :=
  ⟨by decide, by decide,
    extract_palette_roles sampleImg4 2 false false sampleKm (by decide) (by decide)⟩

/-! ## Reinhard transfer (claim C4) -/

/-- Pointwise value of the transfer loop: the L channel passes through under
`preserve_luminance`, every transferred channel gets the Reinhard formula. -/
theorem reinhardPixel_apply (preserve : Bool) (sm ssg tm ts : Fin 3 → ℚ)
    (p : Pix) (i : Fin 3) :
    reinhardPixel preserve sm ssg tm ts p i =
      if preserve = true ∧ i = 0 then p i
      else (p i - sm i) * (ts i / ssg i) + tm i := by
  unfold reinhardPixel transferChannels
  cases preserve
  · simp only [Bool.false_eq_true, false_and, if_false, List.foldl]
    fin_cases i <;> simp [Function.update]
  · simp only [true_and, List.foldl]
    fin_cases i <;> simp [Function.update, Fin.ext_iff]

/-- C4: for every pair of source/target LAB images and their actual channel
standard deviations (`IsStd` pins the parameters to the population std of the
images), each output pixel value of `reinhard_color_transfer` equals, per
transferred channel `i` (all three, or only channels 1 and 2 under
`preserve_luminance`, the L channel passing through unchanged),
`(source[i] - sourceMean[i]) * (targetStd[i] / sourceStd[i]) + targetMean[i]`
with a source std below the `1e-6` floor replaced by `1`, clamped to
`[0, 255]` and truncated before the conversion back to RGB. -/
theorem reinhard_transfer_formula (preserve : Bool) (src tgt : List Pix)
    (ss ts : Fin 3 → ℚ) (hss : IsStd src ss) (hts : IsStd tgt ts) :
    reinhard_output preserve src tgt ss ts = src.map (fun p => fun i =>
      ⌊max 0 (min 255 (if preserve = true ∧ i = 0 then p i
        else (p i - chanMean src i) * (ts i / (if ss i < stdEps then 1 else ss i))
          + chanMean tgt i))⌋) := by
  unfold reinhard_output lab_clip_u8 reinhard_result_lab
  rw [List.map_map]
  congr 1
  funext p
  funext i
  show ⌊max 0 (min 255 (reinhardPixel preserve (chanMean src) (guardStd ss)
    (chanMean tgt) ts p i))⌋ = _
  rw [reinhardPixel_apply]
  unfold guardStd
  rfl

/-- C4 (witness): concrete two-pixel source (std 1 per channel) and
one-pixel target (std 0 per channel), with `preserve_luminance` set. -/
theorem reinhard_transfer_formula_witness :
    IsStd [constPix 0, constPix 2] (fun _ => 1) ∧
    IsStd [constPix 5] (fun _ => 0) ∧
    reinhard_output true [constPix 0, constPix 2] [constPix 5]
        (fun _ => 1) (fun _ => 0)
      = [constPix 0, constPix 2].map (fun p => fun i =>
          ⌊max 0 (min 255 (if true = true ∧ i = 0 then p i
            else (p i - chanMean [constPix 0, constPix 2] i) *
                ((0 : ℚ) / (if (1 : ℚ) < stdEps then 1 else (1 : ℚ)))
              + chanMean [constPix 5] i))⌋) := by
  have h1 : IsStd [constPix 0, constPix 2] (fun _ => 1) := by
    intro i
    refine ⟨by norm_num, ?_⟩
    simp [chanVar, chanMean, constPix]
    norm_num
  have h2 : IsStd [constPix 5] (fun _ => 0) := by
    intro i
    refine ⟨by norm_num, ?_⟩
    simp [chanVar, chanMean, constPix]
  exact ⟨h1, h2,
    reinhard_transfer_formula true [constPix 0, constPix 2] [constPix 5]
      (fun _ => 1) (fun _ => 0) h1 h2⟩

/-! ## SSIM lemmas (claim C6) -/

/-- `zipWith (*)` of a list with itself is the elementwise square. -/
theorem zipWith_mul_self (l : List ℚ) :
    List.zipWith (fun a b => a * b) l l = l.map (fun a => a * a) := by
  induction l with
  | nil => rfl
  | cons a t ih => simp [ih]

/-- Cauchy–Schwarz for list sums: `(Σ x)² ≤ n · Σ x²`. -/
theorem sq_sum_le_length_mul_sum_sq (l : List ℚ) :
    l.sum ^ 2 ≤ (l.length : ℚ) * (l.map (fun a => a * a)).sum := by
  induction l with
  | nil => simp
  | cons a t ih =>
    by_cases ht : t = []
    · subst ht
      simp
      nlinarith [sq_nonneg a]
    · have hn : 0 < (t.length : ℚ) := by
        exact_mod_cast List.length_pos.mpr ht
      simp only [List.sum_cons, List.map_cons, List.length_cons]
      push_cast
      have key : 0 ≤ (t.length : ℚ) *
          ((t.length : ℚ) * a ^ 2 + (t.map (fun a => a * a)).sum - 2 * a * t.sum) := by
        nlinarith [sq_nonneg ((t.length : ℚ) * a - t.sum), ih]
      have h2 : 0 ≤ (t.length : ℚ) * a ^ 2 + (t.map (fun a => a * a)).sum
          - 2 * a * t.sum := by
        nlinarith [key, hn]
      nlinarith [h2, ih]

/-- The squared mean never exceeds the mean of the squares. -/
theorem listMean_sq_le_mean_sq (l : List ℚ) :
    listMean l * listMean l ≤ listMean (l.map (fun a => a * a)) := by
  rcases eq_or_ne l [] with h | h
  · subst h
    simp [listMean]
  · have hn : 0 < (l.length : ℚ) := by
      exact_mod_cast List.length_pos.mpr h
    unfold listMean
    rw [List.length_map]
    rw [div_mul_div_comm, div_le_div_iff₀ (by positivity) hn]
    have key := sq_sum_le_length_mul_sum_sq l
    nlinarith [key, hn]

/-- Each local (sample-normalised) variance of the SSIM computation is
nonnegative. -/
theorem winVar_nonneg (g : Gray) (i j : ℕ) : 0 ≤ winVar g i j := by
  unfold winVar winSqMean winMean
  nlinarith [listMean_sq_le_mean_sq (windowAt g i j)]

/-- The local covariance of an image with itself is its local variance. -/
theorem winCov_self (g : Gray) (i j : ℕ) : winCov g g i j = winVar g i j := by
  unfold winCov winVar winSqMean winMean
  rw [zipWith_mul_self]

/-- Every entry of the SSIM similarity map of an image with itself is `1`. -/
theorem ssimAt_self (g : Gray) (i j : ℕ) : ssimAt g g i j = 1 := by
  unfold ssimAt
  rw [winCov_self]
  have hA : (0 : ℚ) < winMean g i j * winMean g i j + winMean g i j * winMean g i j
      + ssimC1 := by
    unfold ssimC1
    nlinarith [mul_self_nonneg (winMean g i j)]
  have hB : (0 : ℚ) < winVar g i j + winVar g i j + ssimC2 := by
    unfold ssimC2
    nlinarith [winVar_nonneg g i j]
  have h1 : 2 * winMean g i j * winMean g i j + ssimC1
      = winMean g i j * winMean g i j + winMean g i j * winMean g i j + ssimC1 := by
    ring
  have h2 : 2 * winVar g i j + ssimC2 = winVar g i j + winVar g i j + ssimC2 := by
    ring
  rw [h1, h2]
  exact div_self (ne_of_gt (mul_pos hA hB))

/-- A list of ones sums to its length. -/
theorem sum_eq_length_of_all_one (l : List ℚ) (h : ∀ x ∈ l, x = 1) :
    l.sum = l.length := by
  induction l with
  | nil => simp
  | cons a t ih =>
    have ha : a = 1 := h a (List.mem_cons_self _ _)
    have ht : ∀ x ∈ t, x = 1 := fun x hx => h x (List.mem_cons_of_mem _ hx)
    simp [ha, ih ht]
    ring

/-- The mean of a non-empty list of ones is `1`. -/
theorem listMean_of_all_one (l : List ℚ) (hne : l ≠ []) (h : ∀ x ∈ l, x = 1) :
    listMean l = 1 := by
  unfold listMean
  rw [sum_eq_length_of_all_one l h]
  have hn : ((l.length : ℚ)) ≠ 0 := by
    have := List.length_pos.mpr hne
    positivity
  exact div_self hn

/-- Every cropped similarity-map entry of a self-comparison is `1`. -/
theorem croppedSsim_self_all_one (g : Gray) :
    ∀ x ∈ croppedSsim g g, x = 1 := by
  intro x hx
  unfold croppedSsim at hx
  obtain ⟨i, _, hx⟩ := List.mem_flatMap.mp hx
  obtain ⟨j, _, rfl⟩ := List.mem_map.mp hx
  exact ssimAt_self g _ _

/-- For an image of height and width at least 7, the cropped similarity map
is non-empty. -/
theorem croppedSsim_self_ne_nil (g : Gray) (hh : 7 ≤ g.length)
    (hw : 7 ≤ imgWidth g) : croppedSsim g g ≠ [] := by
  unfold croppedSsim
  intro h
  rw [List.flatMap_eq_nil_iff] at h
  have h0 : (0 : ℕ) ∈ List.range (g.length - 6) := by
    rw [List.mem_range]
    omega
  have := h 0 h0
  rw [List.map_eq_nil_iff, List.range_eq_nil] at this
  omega

/-- The SSIM score of an image against itself is exactly `1`. -/
theorem ssimScore_self (g : Gray) (hh : 7 ≤ g.length) (hw : 7 ≤ imgWidth g) :
    ssimScore g g = 1 := by
  unfold ssimScore
  exact listMean_of_all_one _ (croppedSsim_self_ne_nil g hh hw)
    (croppedSsim_self_all_one g)

/-- `toU8 (1 * 255) = 255`. -/
theorem toU8_one_mul : toU8 ((1 : ℚ) * 255) = 255 := by
  unfold toU8 truncQ
  rw [if_pos (by norm_num)]
  have h : ⌊(1 : ℚ) * 255⌋ = 255 := by norm_num
  rw [h]
  rfl

/-- Every entry of the thresholded self-comparison mask is `0`. -/
theorem diffMask_self_all_zero (g : Gray) :
    ∀ row ∈ diffMask (ssimMap g g), ∀ v ∈ row, v = 0 := by
  intro row hrow v hv
  unfold diffMask at hrow
  obtain ⟨srow, hsrow, rfl⟩ := List.mem_map.mp hrow
  obtain ⟨q, hq, rfl⟩ := List.mem_map.mp hv
  unfold ssimMap at hsrow
  obtain ⟨i, _, rfl⟩ := List.mem_map.mp hsrow
  obtain ⟨j, _, rfl⟩ := List.mem_map.mp hq
  rw [ssimAt_self, toU8_one_mul]
  rfl

/-- A mask whose entries are all zero has no nonzero cells. -/
theorem cellList_eq_nil_of_all_zero (m : List (List ℕ))
    (h : ∀ row ∈ m, ∀ v ∈ row, v = 0) : cellList m = [] := by
  unfold cellList
  rw [List.flatMap_eq_nil_iff]
  intro r hr
  rw [List.filterMap_eq_nil_iff]
  intro c hc
  have hrm : r.2 ∈ m := by
    have := List.of_mem_zip (List.enum_eq_zip_range m ▸ hr)
    exact this.2
  have hcm : c.2 ∈ r.2 := by
    have := List.of_mem_zip (List.enum_eq_zip_range r.2 ▸ hc)
    exact this.2
  have := h r.2 hrm c.2 hcm
  simp [this]

/-- No difference regions are reported for an all-zero mask. -/
theorem diffRegions_eq_nil_of_all_zero (m : List (List ℕ))
    (h : ∀ row ∈ m, ∀ v ∈ row, v = 0) : diffRegions m = [] := by
  unfold diffRegions findComponents
  rw [cellList_eq_nil_of_all_zero m h]
  rfl

/-- `round(1.0, 4) = 1.0`. -/
theorem roundTo_four_one : roundTo 4 (1 : ℚ) = 1 := by
  unfold roundTo
  have h : (1 : ℚ) * 10 ^ 4 = ((10000 : ℤ) : ℚ) := by norm_num
  rw [h, roundHalfEven_intCast]
  norm_num

/-- C6 (counterexample): on a 1×1 image skimage's 7×7 window exceeds the
image extent, `structural_similarity` raises `ValueError`, and the tool
reports a failure dictionary — not the score-1.0 comparison result the claim
asserts for every image compared against itself. -/
theorem compute_ssim_small_self_fails :
    compute_ssim [[((0 : ℤ), 0, 0)]] [[((0 : ℤ), 0, 0)]] = none ∧
    compute_ssim [[((0 : ℤ), 0, 0)]] [[((0 : ℤ), 0, 0)]]
      ≠ some ⟨1, true, [], "excellent"⟩ := by
  have h : compute_ssim [[((0 : ℤ), 0, 0)]] [[((0 : ℤ), 0, 0)]] = none := by
    unfold compute_ssim
    rw [if_pos]
    left
    decide
  exact ⟨h, by rw [h]; simp⟩

/-- C6 (amended): comparing any image of height and width at least the 7×7
SSIM window against itself yields score exactly `1.0`, an empty
difference-region list, the `"excellent"` bucket, and `passed = true`;
smaller images make `structural_similarity` raise instead of returning a
comparison result. -/
theorem compute_ssim_self (img : List (List Rgb)) (hh : 7 ≤ img.length)
    (hw : 7 ≤ imgWidth img) :
    compute_ssim img img = some ⟨1, true, [], "excellent"⟩ := by
  have hpair : alignedPair img img = (img, img) := by
    unfold alignedPair
    rw [if_pos]
    unfold sameShape
    simp
  have hg_len : (grayOf img).length = img.length := by
    simp [grayOf]
  have hg_w : imgWidth (grayOf img) = imgWidth img := by
    unfold grayOf imgWidth
    rcases img with _ | ⟨r, rest⟩
    · rfl
    · simp
  unfold compute_ssim
  rw [hpair]
  show (if (grayOf img).length < 7 ∨ imgWidth (grayOf img) < 7 then none
    else some (ssimResultOfScore (ssimScore (grayOf img) (grayOf img))
      (diffRegions (diffMask (ssimMap (grayOf img) (grayOf img)))))) = _
  rw [if_neg (not_or.mpr
    ⟨not_lt.mpr (by rw [hg_len]; exact hh), not_lt.mpr (by rw [hg_w]; exact hw)⟩)]
  have hscore : ssimScore (grayOf img) (grayOf img) = 1 :=
    ssimScore_self _ (by rw [hg_len]; exact hh) (by rw [hg_w]; exact hw)
  have hreg : diffRegions (diffMask (ssimMap (grayOf img) (grayOf img))) = [] :=
    diffRegions_eq_nil_of_all_zero _ (diffMask_self_all_zero _)
  rw [hscore, hreg]
  unfold ssimResultOfScore
  rw [roundTo_four_one]
  rw [if_pos (by norm_num : (95 : ℚ) / 100 ≤ 1)]
  have hp : decide ((94 : ℚ) / 100 ≤ 1) = true := decide_eq_true (by norm_num)
  rw [hp]

/-- C6 (witness for the amended theorem): the concrete 7×7 all-black image
compared with itself. -/
theorem compute_ssim_self_witness :
    7 ≤ sampleImg7.length ∧ 7 ≤ imgWidth sampleImg7 ∧
    compute_ssim sampleImg7 sampleImg7 = some ⟨1, true, [], "excellent"⟩ :=
  ⟨by decide, by decide, compute_ssim_self sampleImg7 (by decide) (by decide)⟩
